import Mathlib

/-!
Shallow embedding of the `interface` library (`src/interface/interface.py`,
`src/interface/functional.py`): interface definitions, signature diffing,
verification with default resolution, conflict detection across interfaces,
and the memoized `implements` synthesizer.

Python dicts are embedded as association lists in insertion order; dict
update keeps the position of an existing key, as in Python.  Machinery the
repository imports from modules not present under `src/`
(`typed_signature.TypedSignature`, `typecheck.compatible`, `default`,
`utils`, `compat`) is modelled from the spec, with doc comments saying so.
Error messages are modelled structurally: an error value carries exactly
the data the corresponding Python message interpolates.
-/

/-- Modelled from the spec (the signature normalizer, section 2 and 4.2, is an
external collaborator whose module `typed_signature` is not under `src/`):
the canonical call shape of a callable member, with the implicit leading
self or owner parameter already removed. -/
structure Shape where
  positional : List String
  kwRequired : List String
  kwOptional : List String
  varArgs : Bool
deriving DecidableEq, Repr

/-- Modelled from the spec (section 4.2; module `typecheck` is not under
`src/`): two canonical shapes are compatible when the fixed positional
names agree in order and every required keyword-only name of the interface
side is accepted, required or defaulted, on the implementation side.
Extra optional parameters or a variadic capture on the implementation side
are permitted and need no check. -/
def compatible (impl iface : Shape) : Bool :=
  impl.positional == iface.positional &&
    iface.kwRequired.all
      (fun n => impl.kwRequired.contains n || impl.kwOptional.contains n)

/-- Modelled from the spec (section 9: member kind as a closed tagged
variant; module `typed_signature` is not under `src/`): the kind of a
class-body member. -/
inductive MemberKind where
  | function
  | classFn
  | staticFn
  | prop
deriving DecidableEq, Repr

/-- Modelled from the spec (section 4.2: the implementation kind must be
the declared kind or a documented-compatible subtype; with the closed kind
variant the only such relation is equality).  This embeds the
`issubclass(impl_sig.type, iface_sig.type)` test of `_diff_signatures`. -/
def subkind (impl iface : MemberKind) : Bool :=
  impl == iface

/-- Printable name of a member kind, standing in for `type(v).__name__`. -/
def MemberKind.nameOf : MemberKind → String
  | .function => "function"
  | .classFn => "classmethod"
  | .staticFn => "staticmethod"
  | .prop => "property"

/-- Normalized typed signature of a member: its kind together with its call
shape.  Embeds the `TypedSignature` record (`.type` and `.signature`). -/
structure Callable where
  kind : MemberKind
  shape : Shape
deriving DecidableEq, Repr

/-- Modelled from the spec (the Default Descriptor of section 3; module
`default` is not under `src/`): the implementation wrapped by a `default`
marker.  The `id` field models Python object identity of the wrapped
callable, so that two interfaces can share literally the same default
object. -/
structure Impl where
  id : Nat
  fn : Callable
deriving DecidableEq, Repr

/-- Raw value bound to a name in a class body: a parsable callable-like
member, a `default`-wrapped implementation, or a plain value whose
signature cannot be derived (carrying its type name for diagnostics). -/
inductive Value where
  | callable : Callable → Value
  | dflt : Impl → Value
  | plain : String → Value
deriving DecidableEq, Repr

/-- Modelled from the spec (section 2: the signature normalizer produces a
canonical description or fails): `TypedSignature(v)` as a partial
function.  A `default` wrapper normalizes to its wrapped implementation's
signature; a plain value has no derivable signature. -/
def typedSignature : Value → Option Callable
  | .callable c => some c
  | .dflt i => some i.fn
  | .plain _ => none

/-- Type name of a raw value, standing in for `getname(type(v))` in the
declaration-time error message. -/
def Value.typeName : Value → String
  | .callable c => c.kind.nameOf
  | .dflt _ => "default"
  | .plain s => s

/-- The `CLASS_ATTRIBUTE_WHITELIST` of structural names excluded from an
interface body. -/
def CLASS_ATTRIBUTE_WHITELIST : List String :=
  ["__doc__", "__module__", "__name__", "__qualname__", "__weakref__"]

/-- Embeds `is_interface_field_name = complement(whitelist.__contains__)`,
with `complement` from `src/interface/functional.py`. -/
def is_interface_field_name (k : String) : Bool :=
  !(CLASS_ATTRIBUTE_WHITELIST.contains k)

/-- Python dict lookup on the association-list embedding. -/
def lookupKey {κ α : Type} [DecidableEq κ] : List (κ × α) → κ → Option α
  | [], _ => none
  | (k, v) :: rest, key => if k = key then some v else lookupKey rest key

/-- Python dict update `d[k] = v`: replace in place if the key exists,
otherwise append, preserving insertion order. -/
def dictInsert {α : Type} : List (String × α) → String → α → List (String × α)
  | [], k, v => [(k, v)]
  | (k', v') :: rest, k, v =>
      if k' = k then (k, v) :: rest else (k', v') :: dictInsert rest k v

/-- Embeds `defaultdict(list)` update `d[k].append(x)`. -/
def dictAppend {α : Type} : List (String × List α) → String → α → List (String × List α)
  | [], k, x => [(k, [x])]
  | (k', l) :: rest, k, x =>
      if k' = k then (k, l ++ [x]) :: rest else (k', l) :: dictAppend rest k x

/-- The Interface Definition: its name, the `_signatures` dict, and the
`_defaults` dict computed by `InterfaceMeta.__new__`. -/
structure Iface where
  name : String
  signatures : List (String × Callable)
  defaults : List (String × Impl)
deriving DecidableEq, Repr

/-- Declaration-time `TypeError` raised by `InterfaceMeta.__new__` when a
field's signature cannot be parsed; carries the interface name, field name
and value type name that the Python message interpolates. -/
structure ParseErr where
  ifaceName : String
  fieldName : String
  attrType : String
deriving DecidableEq, Repr

/-- The `isinstance(v, default)` step of `InterfaceMeta.__new__`: a
`default`-wrapped value is additionally recorded in the `defaults` dict. -/
def defaultsUpdate (defs : List (String × Impl)) (k : String) : Value → List (String × Impl)
  | .dflt i => dictInsert defs k i
  | _ => defs

/-- Loop body of `InterfaceMeta.__new__`: walk the (whitelist-filtered)
class dict in order, building the `signatures` and `defaults` dicts, and
fail on the first field whose signature cannot be parsed. -/
def buildIface (ifaceName : String) :
    List (String × Value) → List (String × Callable) → List (String × Impl) →
    Except ParseErr (List (String × Callable) × List (String × Impl))
  | [], sigs, defs => .ok (sigs, defs)
  | (k, v) :: rest, sigs, defs =>
      if is_interface_field_name k then
        match typedSignature v with
        | none => .error ⟨ifaceName, k, v.typeName⟩
        | some sig =>
            buildIface ifaceName rest (dictInsert sigs k sig) (defaultsUpdate defs k v)
      else
        buildIface ifaceName rest sigs defs

/-- Embeds `InterfaceMeta.__new__`: construct an Interface Definition from
an interface name and its declared class body. -/
def InterfaceMeta.new (name : String) (clsdict : List (String × Value)) :
    Except ParseErr Iface :=
  match buildIface name clsdict [] [] with
  | .error e => .error e
  | .ok (sigs, defs) => .ok ⟨name, sigs, defs⟩

/-- A candidate type offered for verification.  Its `members` list is the
flattening of `vars(t)` along the method resolution order, so that lookup
of the first binding embeds `static_get_type_attr`: a raw scan over the
ancestry that never triggers the descriptor protocol. -/
structure Candidate where
  name : String
  members : List (String × Value)
deriving DecidableEq, Repr

/-- Embeds `static_get_type_attr(t, name)`: first raw binding found along
the candidate's mro, `none` standing for the final `AttributeError`. -/
def static_get_type_attr (t : Candidate) (name : String) : Option Value :=
  lookupKey t.members name

/-- The three accumulators of `InterfaceMeta._diff_signatures`. -/
structure DiffResult where
  missing : List String
  mistyped : List (String × MemberKind)
  mismatched : List (String × Callable)
deriving DecidableEq, Repr

/-- Loop of `_diff_signatures` over the interface's signature items.  A
member found on the candidate but with an unparsable signature makes
`TypedSignature(f)` raise an uncaught `TypeError`, embedded as `.error`
carrying the member name. -/
def diffGo (t : Candidate) :
    List (String × Callable) → DiffResult → Except String DiffResult
  | [], acc => .ok acc
  | (name, ifaceSig) :: rest, acc =>
      match static_get_type_attr t name with
      | none => diffGo t rest { acc with missing := acc.missing ++ [name] }
      | some f =>
          match typedSignature f with
          | none => .error name
          | some implSig =>
              let acc :=
                if subkind implSig.kind ifaceSig.kind then acc
                else { acc with mistyped := dictInsert acc.mistyped name implSig.kind }
              let acc :=
                if compatible implSig.shape ifaceSig.shape then acc
                else { acc with mismatched := dictInsert acc.mismatched name implSig }
              diffGo t rest acc

/-- Embeds `InterfaceMeta._diff_signatures(self, type_)`. -/
def Iface.diff_signatures (I : Iface) (t : Candidate) : Except String DiffResult :=
  diffGo t I.signatures ⟨[], [], []⟩

/-- Errors raised by `verify`: the propagated `TypeError` from parsing a
candidate member, or `InvalidImplementation` carrying the candidate name,
the interface name, and the three itemized sections of the diagnostic. -/
inductive VerifyErr where
  | parse : String → VerifyErr
  | invalid : String → String → List String → List (String × MemberKind) →
      List (String × Callable) → VerifyErr
deriving DecidableEq, Repr

/-- Default-resolution loop of `verify`: split the raw missing names into
those covered by a declared default (collected into `defaults_to_use`) and
those still missing. -/
def resolveDefaults (defs : List (String × Impl)) :
    List String → List (String × Impl) → List String →
    (List (String × Impl) × List String)
  | [], dtu, missing => (dtu, missing)
  | name :: rest, dtu, missing =>
      match lookupKey defs name with
      | some d => resolveDefaults defs rest (dictInsert dtu name d) missing
      | none => resolveDefaults defs rest dtu (missing ++ [name])

/-- Embeds `InterfaceMeta.verify(self, type_)`: diff the signatures, cover
missing members by defaults, succeed with the resolved-defaults mapping
exactly when nothing remains missing, mistyped or mismatched. -/
def Iface.verify (I : Iface) (t : Candidate) :
    Except VerifyErr (List (String × Impl)) :=
  match I.diff_signatures t with
  | .error e => .error (.parse e)
  | .ok d =>
      let (dtu, missing) := resolveDefaults I.defaults d.missing [] []
      if missing.isEmpty && d.mistyped.isEmpty && d.mismatched.isEmpty then
        .ok dtu
      else
        .error (.invalid t.name I.name missing d.mistyped d.mismatched)

/-- Structured form of the `TypeError` raised by `Interface.__new__`:
interfaces can never be instantiated; the message interpolates the class
name. -/
structure InstErr where
  clsName : String
deriving DecidableEq, Repr

/-- Embeds `Interface.__new__(cls, *args, **kwargs)`: unconditionally
raise, whatever arguments are supplied. -/
def Interface.new (cls : Iface) (_args : List Value) : Except InstErr Unit :=
  .error ⟨cls.name⟩

/-- Lexicographic comparison of character lists by code point, the order
Python uses to compare strings. -/
def charListLt : List Char → List Char → Bool
  | [], [] => false
  | [], _ :: _ => true
  | _ :: _, [] => false
  | a :: as, b :: bs =>
      if a.toNat < b.toNat then true
      else if b.toNat < a.toNat then false
      else charListLt as bs

/-- String comparison by code points, standing in for the `<` that
`sorted` uses on the provider names. -/
def strLt (a b : String) : Bool := charListLt a.data b.data

/-- Insert a string into a sorted list, for the `sorted(...)` call in
`_conflicting_defaults`. -/
def insertSorted (s : String) : List String → List String
  | [] => [s]
  | x :: xs => if strLt s x then s :: x :: xs else x :: insertSorted s xs

/-- Insertion sort on strings, embedding `sorted`. -/
def sortStrings : List String → List String
  | [] => []
  | x :: xs => insertSorted x (sortStrings xs)

/-- One entry of the `errors` list collected by `ImplementsMeta.__new__`:
either a per-interface `InvalidImplementation` from `verify`, or the
`_conflicting_defaults` error carrying the subclass name and, per
conflicting member name, the sorted names of the interfaces that provided
a default for it. -/
inductive CheckItem where
  | invalidImpl : VerifyErr → CheckItem
  | conflict : String → List (String × List String) → CheckItem
deriving DecidableEq, Repr

/-- The raise at the end of `ImplementsMeta.__new__`: a single collected
error is raised as-is, several are joined into one compound error. -/
inductive CheckErr where
  | one : CheckItem → CheckErr
  | many : List CheckItem → CheckErr
deriving DecidableEq, Repr

/-- Inner loop of `ImplementsMeta.__new__` over one interface's resolved
defaults: record each implementation in `default_impls` and append the
providing interface's name to `default_providers[name]`. -/
def provFold (ifaceName : String) :
    List (String × Impl) → List (String × Impl) → List (String × List String) →
    (List (String × Impl) × List (String × List String))
  | [], di, pv => (di, pv)
  | (name, impl) :: rest, di, pv =>
      provFold ifaceName rest (dictInsert di name impl) (dictAppend pv name ifaceName)

/-- Outer loop of `ImplementsMeta.__new__` over the candidate's interfaces:
verify each one, collecting per-interface errors, the merged default
implementations, and the default providers. -/
def verifyFold (t : Candidate) :
    List Iface → List VerifyErr → List (String × Impl) → List (String × List String) →
    (List VerifyErr × List (String × Impl) × List (String × List String))
  | [], errs, di, pv => (errs, di, pv)
  | i :: rest, errs, di, pv =>
      match i.verify t with
      | .ok ds =>
          verifyFold t rest errs (provFold i.name ds di pv).1 (provFold i.name ds di pv).2
      | .error e => verifyFold t rest (errs ++ [e]) di pv

/-- Embeds the checking path of `ImplementsMeta.__new__` (the
`interfaces=empty_set` branch, i.e. subclass construction): `typename` is
the subclass name, `ifaces` the deduplicated result of
`newtype.interfaces()`, and `t` the subclass itself as a candidate.  On
success the value is the `default_impls` dict installed via `setattr`. -/
def ImplementsMeta.check (typename : String) (ifaces : List Iface) (t : Candidate) :
    Except CheckErr (List (String × Impl)) :=
  let r := verifyFold t ifaces [] [] []
  let dups := r.2.2.filter (fun p => decide (1 < p.2.length))
  let errs :=
    if dups.isEmpty then r.1.map CheckItem.invalidImpl
    else r.1.map CheckItem.invalidImpl ++ [CheckItem.conflict typename
      (dups.map (fun p => (p.1, sortStrings p.2)))]
  match errs with
  | [] => .ok r.2.1
  | [e] => .error (.one e)
  | es => .error (.many es)

/-- An argument passed to `implements`, by Python object identity: either
an Interface Definition (an `Interface` subclass) or any other object.
Frozenset membership and memo-key equality are identity-based in the
source, which the numeric identity models. -/
inductive Arg where
  | iface : Nat → Arg
  | notIface : Nat → Arg
deriving DecidableEq, Repr

/-- States whether an argument is an Interface subclass, embedding the
`issubclass(I, Interface)` test inside `implements`. -/
def Arg.isIface : Arg → Bool
  | .iface _ => true
  | .notIface _ => false

/-- The closure state of `_make_implements`: the `WeakKeyDictionary` memo
from frozensets of interfaces to synthesized base types (types are
numbered by creation order), plus the next fresh type identity. -/
structure ImplementsState where
  memo : List (Finset Arg × Nat)
  nextId : Nat
deriving DecidableEq

/-- The closure state at import time: an empty memo. -/
def initState : ImplementsState := ⟨[], 0⟩

/-- The `TypeError` outcomes of `implements`: an empty argument list, or an
argument that is not an Interface subclass. -/
inductive ImplementsErr where
  | noArgs
  | notAnInterface : Arg → ImplementsErr
deriving DecidableEq, Repr

/-- Embeds `implements(*interfaces)`: reject an empty argument list,
normalize the arguments to a frozenset, return the memoized base type on a
hit, otherwise reject any non-interface argument, then synthesize a fresh
base type carrying the interface set and record it in the memo. -/
def implements (st : ImplementsState) (args : List Arg) :
    Except ImplementsErr (Nat × ImplementsState) :=
  if args.isEmpty then .error .noArgs
  else
    let key := args.toFinset
    match lookupKey st.memo key with
    | some t => .ok (t, st)
    | none =>
        match args.find? (fun a => !a.isIface) with
        | some a => .error (.notAnInterface a)
        | none => .ok (st.nextId, ⟨(key, st.nextId) :: st.memo, st.nextId + 1⟩)

/-- Decidable statement that the candidate defines `name` with a raw value
whose typed signature is exactly `sig`. -/
def memberMatches (t : Candidate) (name : String) (sig : Callable) : Bool :=
  ((static_get_type_attr t name).bind typedSignature) == some sig

/-- Decidable statement that the candidate defines every member named in
the interface's signatures with a signature identical to the declared
one. -/
def conformsExactly (I : Iface) (t : Candidate) : Bool :=
  I.signatures.all (fun p => memberMatches t p.1 p.2)

/-- Decidable statement that the candidate lacks `m` entirely and defines
every other declared member with a signature identical to the declared
one. -/
def conformsExceptMissing (I : Iface) (t : Candidate) (m : String) : Bool :=
  I.signatures.all
    (fun p => if p.1 == m then (static_get_type_attr t p.1).isNone
              else memberMatches t p.1 p.2)

/-- Invariant on the `implements` closure state: every memoized frozenset
holds only Interface subclasses.  It holds for the initial state and is
preserved by every call, because the memo is only extended after the
interface check has passed. -/
def goodState (st : ImplementsState) : Prop :=
  ∀ p ∈ st.memo, ∀ a ∈ p.1, a.isIface = true

/-- Sample canonical signature: a plain function of one positional
parameter. -/
def sampleSig : Callable := ⟨.function, ⟨["x"], [], [], false⟩⟩

/-- Sample canonical signature of two positional parameters, not
compatible with `sampleSig`. -/
def sampleSig2 : Callable := ⟨.function, ⟨["x", "y"], [], [], false⟩⟩

/-- Sample default implementation object. -/
def sampleImpl : Impl := ⟨7, sampleSig⟩

/-- Interface with two required members and no defaults. -/
def c3iface : Iface := ⟨"I", [("f", sampleSig), ("g", sampleSig2)], []⟩

/-- Candidate defining both members of `c3iface` with identical
signatures. -/
def c3cand : Candidate :=
  ⟨"T", [("f", .callable sampleSig), ("g", .callable sampleSig2)]⟩

/-- Interface requiring `f` and `m`, with a default for `m`. -/
def c4iface : Iface :=
  ⟨"I", [("f", sampleSig), ("m", sampleSig)], [("m", sampleImpl)]⟩

/-- Candidate lacking `m` entirely but matching `f` exactly. -/
def c4cand : Candidate := ⟨"T", [("f", .callable sampleSig)]⟩

/-- Interface declaring `m` as a computed property of one parameter. -/
def c5iface : Iface := ⟨"I5", [("m", ⟨.prop, ⟨["x"], [], [], false⟩⟩)], []⟩

/-- Candidate providing `m` as a plain function whose shape is also not
compatible with the declared one: wrong kind and wrong shape at once. -/
def c5cand : Candidate := ⟨"T5", [("m", .callable sampleSig2)]⟩

/-- The diff `c5iface` computes against `c5cand`: the member `m` lands in
`mistyped` and in `mismatched` simultaneously. -/
def c5diff : DiffResult :=
  ⟨[], [("m", .function)], [("m", sampleSig2)]⟩

/-- First interface providing a default for `m`. -/
def c1iface1 : Iface := ⟨"I1", [("m", sampleSig)], [("m", sampleImpl)]⟩

/-- Second interface providing literally the same default object
(`sampleImpl`, identity 7) for the same member `m`. -/
def c1iface2 : Iface := ⟨"I2", [("m", sampleSig)], [("m", sampleImpl)]⟩

/-- Candidate lacking `m`; both interfaces cover it by their (shared)
default. -/
def c1cand : Candidate := ⟨"C", []⟩

/-- Class body whose third field is a plain value with no derivable
signature; the whitelisted `__doc__` entry is skipped and the first field
parses. -/
def c8clsdict : List (String × Value) :=
  [("__doc__", .plain "str"), ("f", .callable sampleSig), ("b", .plain "int")]

/-- Class body declaring a plain member and a defaulted member. -/
def c9clsdict : List (String × Value) :=
  [("f", .callable sampleSig), ("m", .dflt sampleImpl)]

/-- The Interface Definition constructed from `c9clsdict`. -/
def c9iface : Iface :=
  ⟨"I9", [("f", sampleSig), ("m", sampleSig)], [("m", sampleImpl)]⟩

/-- Closure state after memoizing the pair of interfaces 0 and 1. -/
def c2state : ImplementsState :=
  ⟨[([Arg.iface 0, Arg.iface 1].toFinset, 0)], 1⟩

/-- Closure state after memoizing the single interface 5. -/
def c10state : ImplementsState :=
  ⟨[([Arg.iface 5].toFinset, 0)], 1⟩

/-- States whether an `ImplementsMeta.check` outcome is exactly one
conflicting-defaults error for the given subclass name. -/
def isConflictErr : Except CheckErr (List (String × Impl)) → String → Bool
  | .error (.one (.conflict tn _)), tn' => tn == tn'
  | _, _ => false

/-- The sorted provider names a single conflicting-defaults error reports
for a member name, empty for any other outcome. -/
def conflictNames : Except CheckErr (List (String × Impl)) → String → List String
  | .error (.one (.conflict _ conflicts)), m => (lookupKey conflicts m).getD []
  | _, _ => []

lemma compatible_refl (s : Shape) : compatible s s = true := by
  simp [compatible, List.all_eq_true]
  intro n hn
  exact Or.inl hn

lemma subkind_refl (k : MemberKind) : subkind k k = true := by
  simp [subkind]

lemma mem_dictInsert {α : Type} (l : List (String × α)) (k : String) (v : α)
    (p : String × α) (h : p ∈ dictInsert l k v) : p = (k, v) ∨ p ∈ l := by
  induction l with
  | nil =>
      simp [dictInsert] at h
      exact Or.inl h
  | cons hd tl ih =>
      rcases hd with ⟨k', v'⟩
      by_cases hk : k' = k
      · simp [dictInsert, hk] at h
        rcases h with h | h
        · exact Or.inl (by simp [h])
        · exact Or.inr (List.mem_cons_of_mem _ h)
      · simp [dictInsert, hk] at h
        rcases h with h | h
        · exact Or.inr (by simp [h])
        · rcases ih h with h' | h'
          · exact Or.inl h'
          · exact Or.inr (List.mem_cons_of_mem _ h')

lemma keys_dictInsert {α : Type} (l : List (String × α)) (k : String) (v : α)
    (a : String) :
    (∃ x, (a, x) ∈ dictInsert l k v) ↔ a = k ∨ ∃ x, (a, x) ∈ l := by
  induction l with
  | nil => simp [dictInsert]
  | cons hd tl ih =>
      rcases hd with ⟨k', v'⟩
      by_cases hk : k' = k
      · subst hk
        simp [dictInsert]
        constructor
        · rintro ⟨x, h | h⟩
          · exact Or.inl h.1
          · exact Or.inr ⟨x, Or.inr h⟩
        · rintro (h | ⟨x, h | h⟩)
          · exact ⟨v, Or.inl ⟨h, rfl⟩⟩
          · exact ⟨v, Or.inl ⟨h.1, rfl⟩⟩
          · exact ⟨x, Or.inr h⟩
      · simp [dictInsert, hk]
        constructor
        · rintro ⟨x, h | h⟩
          · exact Or.inr ⟨x, Or.inl h⟩
          · rcases ih.mp ⟨x, h⟩ with h' | ⟨x', h'⟩
            · exact Or.inl h'
            · exact Or.inr ⟨x', Or.inr h'⟩
        · rintro (h | ⟨x, h | h⟩)
          · rcases ih.mpr (Or.inl h) with ⟨x', h'⟩
            exact ⟨x', Or.inr h'⟩
          · exact ⟨x, Or.inl h⟩
          · rcases ih.mpr (Or.inr ⟨x, h⟩) with ⟨x', h'⟩
            exact ⟨x', Or.inr h'⟩

lemma lookupKey_mem {κ α : Type} [DecidableEq κ] (l : List (κ × α)) (k : κ)
    (v : α) (h : lookupKey l k = some v) : (k, v) ∈ l := by
  induction l with
  | nil => simp [lookupKey] at h
  | cons hd tl ih =>
      rcases hd with ⟨k', v'⟩
      by_cases hk : k' = k
      · subst hk
        simp [lookupKey] at h
        simp [h]
      · simp [lookupKey, hk] at h
        exact List.mem_cons_of_mem _ (ih h)

/-- Claim C6: constructing an instance of an interface type itself always
raises the usage `TypeError` naming the interface, whatever arguments are
passed: interfaces are never instantiable. -/
theorem interface_never_instantiable (cls : Iface) (args : List Value) :
    Interface.new cls args = .error ⟨cls.name⟩ := rfl

lemma diffGo_matches (t : Candidate) :
    ∀ (sigs : List (String × Callable)) (acc : DiffResult),
    (∀ p ∈ sigs, memberMatches t p.1 p.2 = true) →
    diffGo t sigs acc = .ok acc := by
  intro sigs
  induction sigs with
  | nil => intro acc _; rfl
  | cons hd tl ih =>
      intro acc h
      rcases hd with ⟨n, s⟩
      have hm := h (n, s) (List.mem_cons_self _ _)
      have hb : ((static_get_type_attr t n).bind typedSignature) = some s := by
        simpa [memberMatches] using hm
      cases hv : static_get_type_attr t n with
      | none => rw [hv] at hb; simp at hb
      | some f =>
          rw [hv] at hb
          have hb2 : typedSignature f = some s := hb
          rw [diffGo]
          simp [hv, hb2, subkind_refl, compatible_refl]
          exact ih acc (fun p hp => h p (List.mem_cons_of_mem _ hp))

/-- Claim C3: a candidate type defining every member named in the
interface's signatures with a signature identical to the declared one
passes `verify`, which returns an empty resolved-defaults mapping. -/
theorem verify_exact_conformance (I : Iface) (t : Candidate)
    (h : conformsExactly I t = true) : I.verify t = .ok [] := by
  have hall : ∀ p ∈ I.signatures, memberMatches t p.1 p.2 = true := by
    simpa [conformsExactly, List.all_eq_true] using h
  unfold Iface.verify Iface.diff_signatures
  rw [diffGo_matches t I.signatures ⟨[], [], []⟩ hall]
  simp [resolveDefaults]

/-- Witness for claim C3 at a concrete interface and candidate. -/
theorem verify_exact_conformance_witness :
    conformsExactly c3iface c3cand = true ∧ c3iface.verify c3cand = .ok [] :=
  ⟨by rfl, verify_exact_conformance c3iface c3cand (by rfl)⟩

lemma diffGo_missing (t : Candidate) (m : String) :
    ∀ (sigs : List (String × Callable)) (acc : DiffResult),
    (∀ p ∈ sigs, if p.1 = m then static_get_type_attr t p.1 = none
                 else memberMatches t p.1 p.2 = true) →
    diffGo t sigs acc =
      .ok { acc with missing :=
        acc.missing ++ (sigs.filter (fun p => p.1 == m)).map Prod.fst } := by
  intro sigs
  induction sigs with
  | nil => intro acc _; simp [diffGo]
  | cons hd tl ih =>
      intro acc h
      rcases hd with ⟨n, s⟩
      have h0 := h (n, s) (List.mem_cons_self _ _)
      by_cases hn : n = m
      · have h0' : static_get_type_attr t m = none := by
          rw [hn] at h0
          simpa using h0
        rw [diffGo, hn]
        simp only [h0']
        rw [ih _ (fun p hp => h p (List.mem_cons_of_mem _ hp))]
        simp [hn, List.append_assoc]
      · simp only [if_neg hn] at h0
        have hb : ((static_get_type_attr t n).bind typedSignature) = some s := by
          simpa [memberMatches] using h0
        cases hv : static_get_type_attr t n with
        | none => rw [hv] at hb; simp at hb
        | some f =>
            rw [hv] at hb
            have hb2 : typedSignature f = some s := hb
            rw [diffGo]
            simp only [hv, hb2, subkind_refl, compatible_refl, if_pos]
            rw [ih _ (fun p hp => h p (List.mem_cons_of_mem _ hp))]
            simp [hn]

lemma resolveDefaults_all_m (defs : List (String × Impl)) (m : String) (d : Impl)
    (hd : lookupKey defs m = some d) :
    ∀ ms : List String, (∀ x ∈ ms, x = m) →
    ∀ miss, resolveDefaults defs ms [(m, d)] miss = ([(m, d)], miss) := by
  intro ms
  induction ms with
  | nil => intro _ miss; rfl
  | cons x rest ih =>
      intro h miss
      have hx : m = x := (h x (List.mem_cons_self _ _)).symm
      subst hx
      rw [resolveDefaults]
      simp only [hd, dictInsert, if_pos rfl]
      exact ih (fun y hy => h y (List.mem_cons_of_mem _ hy)) miss

lemma resolveDefaults_start (defs : List (String × Impl)) (m : String) (d : Impl)
    (hd : lookupKey defs m = some d) (ms : List String)
    (h : ∀ x ∈ ms, x = m) (hne : ms ≠ []) :
    resolveDefaults defs ms [] [] = ([(m, d)], []) := by
  cases ms with
  | nil => cases hne rfl
  | cons x rest =>
      have hx : m = x := (h x (List.mem_cons_self _ _)).symm
      subst hx
      rw [resolveDefaults]
      simp only [hd, dictInsert]
      exact resolveDefaults_all_m defs m d hd rest
        (fun y hy => h y (List.mem_cons_of_mem _ hy)) []

/-- Claim C4: when the interface declares a default for `m` and the
candidate lacks `m` entirely but matches every other declared member,
`verify` succeeds and the resolved-defaults mapping sends `m` to that
default's implementation. -/
theorem verify_resolves_default (I : Iface) (t : Candidate) (m : String) (d : Impl)
    (hd : lookupKey I.defaults m = some d)
    (hmem : m ∈ I.signatures.map Prod.fst)
    (hc : conformsExceptMissing I t m = true) :
    I.verify t = .ok [(m, d)] := by
  have hall : ∀ p ∈ I.signatures,
      if p.1 = m then static_get_type_attr t p.1 = none
      else memberMatches t p.1 p.2 = true := by
    intro p hp
    have h0 := (List.all_eq_true.mp hc) p hp
    by_cases hpm : p.1 = m
    · simp only [hpm, if_pos rfl]
      have : (static_get_type_attr t p.1).isNone = true := by
        simpa [hpm] using h0
      simpa [Option.isNone_iff_eq_none, hpm] using this
    · simp only [if_neg hpm]
      simpa [hpm] using h0
  unfold Iface.verify Iface.diff_signatures
  rw [diffGo_missing t m I.signatures ⟨[], [], []⟩ hall]
  have hms_all : ∀ x ∈ (I.signatures.filter (fun p => p.1 == m)).map Prod.fst,
      x = m := by
    intro x hx
    rcases List.mem_map.mp hx with ⟨p, hp, rfl⟩
    have := (List.mem_filter.mp hp).2
    simpa using this
  have hms_ne : (I.signatures.filter (fun p => p.1 == m)).map Prod.fst ≠ [] := by
    rcases List.mem_map.mp hmem with ⟨p, hp, hpe⟩
    have hpf : p ∈ I.signatures.filter (fun q => q.1 == m) :=
      List.mem_filter.mpr ⟨hp, by simp [hpe]⟩
    intro hcon
    have hmm : p.1 ∈ (I.signatures.filter (fun q => q.1 == m)).map Prod.fst :=
      List.mem_map.mpr ⟨p, hpf, rfl⟩
    rw [hcon] at hmm
    simp at hmm
  simp only [List.nil_append]
  rw [resolveDefaults_start I.defaults m d hd _ hms_all hms_ne]
  simp

/-- Witness for claim C4 at a concrete interface and candidate. -/
theorem verify_resolves_default_witness :
    lookupKey c4iface.defaults "m" = some sampleImpl ∧
    "m" ∈ c4iface.signatures.map Prod.fst ∧
    conformsExceptMissing c4iface c4cand "m" = true ∧
    c4iface.verify c4cand = .ok [("m", sampleImpl)] :=
  ⟨by rfl, by decide, by rfl,
    verify_resolves_default c4iface c4cand "m" sampleImpl (by rfl) (by decide) (by rfl)⟩

/-- Counterexample to claim C5: against `c5iface`, the candidate `c5cand`
provides `m` with both the wrong kind and an incompatible shape, and the
diff places `m` in `mistyped` and in `mismatched` at once — the two
classifications are independent `if` tests in `_diff_signatures`, not
exclusive. -/
theorem mismatched_kind_overlap_counterexample :
    c5iface.diff_signatures c5cand = .ok c5diff ∧
    "m" ∈ c5diff.mistyped.map Prod.fst ∧
    "m" ∈ c5diff.mismatched.map Prod.fst :=
  ⟨by rfl, by decide, by decide⟩

lemma diffGo_mismatched_aux (t : Candidate) :
    ∀ (sigs : List (String × Callable)) (acc d : DiffResult),
    diffGo t sigs acc = .ok d →
    ∀ p ∈ d.mismatched, p ∈ acc.mismatched ∨
      ((static_get_type_attr t p.1).bind typedSignature).isSome = true := by
  intro sigs
  induction sigs with
  | nil =>
      intro acc d h p hp
      rw [diffGo] at h
      injection h with h'
      subst h'
      exact Or.inl hp
  | cons hd tl ih =>
      intro acc d h p hp
      rcases hd with ⟨n, s⟩
      rw [diffGo] at h
      cases hv : static_get_type_attr t n with
      | none =>
          simp only [hv] at h
          exact ih _ _ h p hp
      | some f =>
          cases htv : typedSignature f with
          | none => simp [hv, htv] at h
          | some c =>
              simp only [hv, htv] at h
              by_cases hsub : subkind c.kind s.kind = true <;>
                by_cases hcomp : compatible c.shape s.shape = true <;>
                simp only [hsub, hcomp, if_true, if_false, Bool.false_eq_true,
                  if_pos, if_neg, not_false_eq_true] at h
              · exact ih _ _ h p hp
              · rcases ih _ _ h p hp with h' | h'
                · rcases mem_dictInsert _ _ _ _ h' with h'' | h''
                  · right
                    subst h''
                    simp [hv, htv]
                  · exact Or.inl h''
                · exact Or.inr h'
              · rcases ih _ _ h p hp with h' | h'
                · exact Or.inl h'
                · exact Or.inr h'
              · rcases ih _ _ h p hp with h' | h'
                · rcases mem_dictInsert _ _ _ _ h' with h'' | h''
                  · right
                    subst h''
                    simp [hv, htv]
                  · exact Or.inl h''
                · exact Or.inr h'

/-- Claim C5 amended: every member name in the diff's `mismatched` mapping
refers to a member that is present on the candidate (with a parsable
signature); it is not necessarily correctly kinded, since the same name
may simultaneously appear in `mistyped`. -/
theorem mismatched_members_present (I : Iface) (t : Candidate) (d : DiffResult)
    (h : I.diff_signatures t = .ok d) :
    d.mismatched.all
      (fun p => ((static_get_type_attr t p.1).bind typedSignature).isSome) = true := by
  rw [List.all_eq_true]
  intro p hp
  rcases diffGo_mismatched_aux t I.signatures ⟨[], [], []⟩ d h p hp with h' | h'
  · simp at h'
  · simpa using h'

/-- Witness for the amended claim C5, at the concrete diff of `c5iface`
against `c5cand`. -/
theorem mismatched_members_present_witness :
    c5diff.mismatched.all
      (fun p => ((static_get_type_attr c5cand p.1).bind typedSignature).isSome) = true :=
  mismatched_members_present c5iface c5cand c5diff (by rfl)

lemma buildIface_first_failure (nm k : String) (v : Value)
    (rest : List (String × Value))
    (hk : is_interface_field_name k = true) (hv : typedSignature v = none) :
    ∀ (pre : List (String × Value)),
    (∀ q ∈ pre, is_interface_field_name q.1 = false ∨
      (typedSignature q.2).isSome = true) →
    ∀ sigs defs,
    buildIface nm (pre ++ (k, v) :: rest) sigs defs = .error ⟨nm, k, v.typeName⟩ := by
  intro pre
  induction pre with
  | nil =>
      intro _ sigs defs
      rw [List.nil_append, buildIface]
      simp [hk, hv]
  | cons q pre' ih =>
      intro h sigs defs
      rcases q with ⟨k', v'⟩
      have h0 := h (k', v') (List.mem_cons_self _ _)
      by_cases hf : is_interface_field_name k' = true
      · have hsome : (typedSignature v').isSome = true := by
          rcases h0 with h0 | h0
          · rw [hf] at h0; cases h0
          · exact h0
        cases htv : typedSignature v' with
        | none => rw [htv] at hsome; cases hsome
        | some c =>
            rw [List.cons_append, buildIface]
            simp only [hf, htv, if_true]
            exact ih (fun q hq => h q (List.mem_cons_of_mem _ hq)) _ _
      · have hf' : is_interface_field_name k' = false := by
          simpa using hf
        rw [List.cons_append, buildIface]
        simp only [hf', Bool.false_eq_true, if_false]
        exact ih (fun q hq => h q (List.mem_cons_of_mem _ hq)) _ _

/-- Claim C8: an interface declaration containing a non-whitelisted member
whose value has no derivable signature (every earlier field being either
whitelisted or parsable, so this is the field the loop reaches first)
fails at declaration time with a `TypeError` carrying the interface name,
the member name, and the unsupported value's type name.  In the embedding
the construction itself returns the error, so no Interface Definition
exists to defer the failure to verification time. -/
theorem interface_declaration_parse_failure (name : String)
    (clsdict pre rest : List (String × Value)) (k : String) (v : Value)
    (hsplit : clsdict = pre ++ (k, v) :: rest)
    (hpre : pre.all (fun q => !(is_interface_field_name q.1) ||
      (typedSignature q.2).isSome) = true)
    (hk : is_interface_field_name k = true)
    (hv : typedSignature v = none) :
    InterfaceMeta.new name clsdict = .error ⟨name, k, v.typeName⟩ := by
  subst hsplit
  have hpre' : ∀ q ∈ pre, is_interface_field_name q.1 = false ∨
      (typedSignature q.2).isSome = true := by
    intro q hq
    have h0 := (List.all_eq_true.mp hpre) q hq
    by_cases hf : is_interface_field_name q.1 = true
    · right
      simpa [hf] using h0
    · left
      simpa using hf
  unfold InterfaceMeta.new
  rw [buildIface_first_failure name k v rest hk hv pre hpre' [] []]

/-- Witness for claim C8 at a concrete class body: field `b` of type name
`int` cannot be parsed, after a whitelisted `__doc__` entry and a parsable
function field. -/
theorem interface_declaration_parse_failure_witness :
    InterfaceMeta.new "I8" c8clsdict = .error ⟨"I8", "b", "int"⟩ :=
  interface_declaration_parse_failure "I8" c8clsdict
    [("__doc__", Value.plain "str"), ("f", Value.callable sampleSig)] []
    "b" (Value.plain "int") (by rfl) (by rfl) (by rfl) (by rfl)

lemma lookupKey_isSome_of_mem {κ α : Type} [DecidableEq κ]
    (l : List (κ × α)) (a : κ) (h : ∃ x, (a, x) ∈ l) :
    (lookupKey l a).isSome = true := by
  induction l with
  | nil => rcases h with ⟨x, hx⟩; simp at hx
  | cons q rest ih =>
      rcases q with ⟨k', v'⟩
      by_cases hk : k' = a
      · simp [lookupKey, hk]
      · rcases h with ⟨x, hx⟩
        rcases List.mem_cons.mp hx with he | hm
        · exact (hk (congrArg Prod.fst he).symm).elim
        · simp only [lookupKey, if_neg hk]
          exact ih ⟨x, hm⟩

lemma buildIface_defaults_sub (nm : String) :
    ∀ (l : List (String × Value)) (sigs : List (String × Callable))
      (defs : List (String × Impl)) (sigs' : List (String × Callable))
      (defs' : List (String × Impl)),
    buildIface nm l sigs defs = .ok (sigs', defs') →
    (∀ a, (∃ x, (a, x) ∈ defs) → ∃ x, (a, x) ∈ sigs) →
    (∀ a, (∃ x, (a, x) ∈ defs') → ∃ x, (a, x) ∈ sigs') := by
  intro l
  induction l with
  | nil =>
      intro sigs defs sigs' defs' h hinv
      rw [buildIface] at h
      injection h with h'
      rw [Prod.mk.injEq] at h'
      rw [← h'.1, ← h'.2]
      exact hinv
  | cons q rest ih =>
      intro sigs defs sigs' defs' h hinv
      rcases q with ⟨k, v⟩
      by_cases hf : is_interface_field_name k = true
      · cases v with
        | callable c =>
            simp only [buildIface, hf, typedSignature, defaultsUpdate, if_true] at h
            refine ih _ _ _ _ h (fun a ha => ?_)
            exact (keys_dictInsert sigs k c a).mpr (Or.inr (hinv a ha))
        | dflt i =>
            simp only [buildIface, hf, typedSignature, defaultsUpdate, if_true] at h
            refine ih _ _ _ _ h (fun a ha => ?_)
            rcases (keys_dictInsert defs k i a).mp ha with h' | h'
            · exact (keys_dictInsert sigs k i.fn a).mpr (Or.inl h')
            · exact (keys_dictInsert sigs k i.fn a).mpr (Or.inr (hinv a h'))
        | plain s =>
            simp [buildIface, hf, typedSignature] at h
      · have hf' : is_interface_field_name k = false := by simpa using hf
        simp only [buildIface, hf', Bool.false_eq_true, if_false] at h
        exact ih _ _ _ _ h hinv

/-- Claim C9: for every successfully constructed Interface Definition,
every key of the `defaults` dict is also a key of the `signatures` dict.
Both dicts are built once at construction and the embedding is immutable,
so the invariant holds for the life of the definition. -/
theorem defaults_keys_in_signatures (name : String)
    (clsdict : List (String × Value)) (I : Iface)
    (h : InterfaceMeta.new name clsdict = .ok I) :
    I.defaults.all (fun p => (lookupKey I.signatures p.1).isSome) = true := by
  unfold InterfaceMeta.new at h
  cases hb : buildIface name clsdict [] [] with
  | error e => rw [hb] at h; cases h
  | ok pr =>
      rcases pr with ⟨sigs, defs⟩
      rw [hb] at h
      injection h with h'
      subst h'
      rw [List.all_eq_true]
      intro p hp
      apply lookupKey_isSome_of_mem
      refine buildIface_defaults_sub name clsdict [] [] sigs defs hb ?_ p.1 ⟨p.2, hp⟩
      intro a ha
      rcases ha with ⟨x, hx⟩
      simp at hx

/-- Witness for claim C9 at the concrete class body `c9clsdict`. -/
theorem defaults_keys_in_signatures_witness :
    c9iface.defaults.all (fun p => (lookupKey c9iface.signatures p.1).isSome) = true :=
  defaults_keys_in_signatures "I9" c9clsdict c9iface (by rfl)

lemma implements_ok_lookup (st : ImplementsState) (args : List Arg)
    (t : Nat) (st' : ImplementsState) (h : implements st args = .ok (t, st')) :
    lookupKey st'.memo args.toFinset = some t := by
  unfold implements at h
  by_cases he : args.isEmpty
  · rw [if_pos he] at h; cases h
  · rw [if_neg he] at h
    cases hl : lookupKey st.memo args.toFinset with
    | some t0 =>
        simp only [hl] at h
        injection h with h'
        rw [Prod.mk.injEq] at h'
        rw [← h'.1, ← h'.2]
        exact hl
    | none =>
        simp only [hl] at h
        cases hf : args.find? (fun a => !a.isIface) with
        | some a => simp only [hf] at h; cases h
        | none =>
            simp only [hf] at h
            injection h with h'
            rw [Prod.mk.injEq] at h'
            rw [← h'.1, ← h'.2]
            simp [lookupKey]

lemma implements_nil (st : ImplementsState) :
    implements st [] = .error .noArgs := rfl

lemma implements_ok_ne_nil (st : ImplementsState) (args : List Arg)
    (t : Nat) (st' : ImplementsState) (h : implements st args = .ok (t, st')) :
    args ≠ [] := by
  intro hcon
  subst hcon
  rw [implements_nil] at h
  cases h

lemma implements_again (st : ImplementsState) (args1 args2 : List Arg)
    (t : Nat) (st1 : ImplementsState)
    (h : implements st args1 = .ok (t, st1))
    (hset : args2.toFinset = args1.toFinset) (hne : args2 ≠ []) :
    implements st1 args2 = .ok (t, st1) := by
  have hl := implements_ok_lookup st args1 t st1 h
  unfold implements
  rw [if_neg (fun hcon => hne (List.isEmpty_iff.mp hcon))]
  simp only [hset, hl]

/-- Claim C2: the `implements` memo is keyed by the frozenset of the
arguments, so a later call whose arguments form the same set — whatever
their order or multiplicity — returns the identical memoized base type
and leaves the closure state unchanged. -/
theorem implements_order_independent (st : ImplementsState)
    (args1 args2 : List Arg) (t : Nat) (st1 : ImplementsState)
    (h : implements st args1 = .ok (t, st1))
    (hset : args2.toFinset = args1.toFinset) :
    implements st1 args2 = .ok (t, st1) := by
  have h1ne := implements_ok_ne_nil st args1 t st1 h
  have h2ne : args2 ≠ [] := by
    intro hcon
    rw [hcon] at hset
    simp only [List.toFinset_nil] at hset
    exact h1ne ((List.toFinset_eq_empty_iff args1).mp hset.symm)
  exact implements_again st args1 args2 t st1 h hset h2ne

/-- Witness for claim C2: interfaces 0 and 1 requested in both orders give
the same base type 0 and the same final state. -/
theorem implements_order_independent_witness :
    implements c2state [Arg.iface 1, Arg.iface 0] = .ok (0, c2state) :=
  implements_order_independent initState [Arg.iface 0, Arg.iface 1]
    [Arg.iface 1, Arg.iface 0] 0 c2state (by rfl) (by decide)

/-- Claim C10: passing the same interface twice is the same as passing it
once, because the argument list is normalized to a frozenset before the
memo lookup: after `implements(I)` produced a base type, `implements(I, I)`
returns the identical type object and leaves the state unchanged. -/
theorem implements_duplicate_collapses (st : ImplementsState) (i : Nat)
    (t : Nat) (st' : ImplementsState)
    (h : implements st [Arg.iface i] = .ok (t, st')) :
    implements st' [Arg.iface i, Arg.iface i] = .ok (t, st') := by
  apply implements_again st [Arg.iface i] [Arg.iface i, Arg.iface i] t st' h
  · simp [List.toFinset_cons]
  · simp

/-- Witness for claim C10 at interface 5 starting from the empty memo. -/
theorem implements_duplicate_collapses_witness :
    implements c10state [Arg.iface 5, Arg.iface 5] = .ok (0, c10state) :=
  implements_duplicate_collapses initState 5 0 c10state (by rfl)

lemma goodState_initState : goodState initState := by
  intro p hp
  simp [initState] at hp

lemma implements_preserves_goodState (st : ImplementsState) (args : List Arg)
    (t : Nat) (st' : ImplementsState) (h : implements st args = .ok (t, st'))
    (hg : goodState st) : goodState st' := by
  unfold implements at h
  by_cases he : args.isEmpty
  · rw [if_pos he] at h; cases h
  · rw [if_neg he] at h
    cases hl : lookupKey st.memo args.toFinset with
    | some t0 =>
        simp only [hl] at h
        injection h with h'
        rw [Prod.mk.injEq] at h'
        rw [← h'.2]
        exact hg
    | none =>
        simp only [hl] at h
        cases hf : args.find? (fun a => !a.isIface) with
        | some a => simp only [hf] at h; cases h
        | none =>
            simp only [hf] at h
            injection h with h'
            rw [Prod.mk.injEq] at h'
            rw [← h'.2]
            intro p hp
            rcases List.mem_cons.mp hp with rfl | hp'
            · intro a ha
              have ham : a ∈ args := List.mem_toFinset.mp ha
              have hfa := List.find?_eq_none.mp hf a ham
              simpa using hfa
            · exact hg p hp'

/-- Claim C7: on a state whose memo holds only interface sets (true of the
initial state and preserved by every call), `implements` raises the
`TypeError` for an empty argument list, raises the `TypeError` for a
non-interface argument whenever one is present, and in all other cases
returns a type. -/
theorem implements_usage_errors (st : ImplementsState) (args : List Arg)
    (hg : goodState st) :
    (args = [] → implements st args = .error .noArgs) ∧
    ((∃ a ∈ args, a.isIface = false) →
      ∃ b, b.isIface = false ∧ implements st args = .error (.notAnInterface b)) ∧
    (args ≠ [] → (∀ a ∈ args, a.isIface = true) →
      ∃ t st', implements st args = .ok (t, st')) := by
  refine ⟨?_, ?_, ?_⟩
  · intro h; subst h; exact implements_nil st
  · rintro ⟨a, ha, hai⟩
    have hne : args ≠ [] := by intro hcon; subst hcon; simp at ha
    unfold implements
    rw [if_neg (fun hcon => hne (List.isEmpty_iff.mp hcon))]
    have hl : lookupKey st.memo args.toFinset = none := by
      cases hl : lookupKey st.memo args.toFinset with
      | none => rfl
      | some t0 =>
          have hm := lookupKey_mem _ _ _ hl
          have hgood := hg _ hm a (List.mem_toFinset.mpr ha)
          rw [hai] at hgood
          cases hgood
    simp only [hl]
    cases hf : args.find? (fun x => !x.isIface) with
    | none =>
        have hfa := List.find?_eq_none.mp hf a ha
        simp [hai] at hfa
    | some b =>
        have hb := List.find?_some hf
        exact ⟨b, by simpa using hb, by simp only [hf]⟩
  · intro hne hall
    unfold implements
    rw [if_neg (fun hcon => hne (List.isEmpty_iff.mp hcon))]
    cases hl : lookupKey st.memo args.toFinset with
    | some t0 => exact ⟨t0, st, by simp only [hl]⟩
    | none =>
        have hf : args.find? (fun x => !x.isIface) = none := by
          apply List.find?_eq_none.mpr
          intro x hx
          simp [hall x hx]
        exact ⟨st.nextId, ⟨(args.toFinset, st.nextId) :: st.memo, st.nextId + 1⟩,
          by simp only [hl, hf]⟩

/-- Witness for claim C7: the three behaviours at concrete calls from the
initial (empty-memo) state. -/
theorem implements_usage_errors_witness :
    implements initState [] = .error .noArgs ∧
    implements initState [Arg.iface 0, Arg.notIface 3] =
      .error (.notAnInterface (Arg.notIface 3)) ∧
    implements initState [Arg.iface 0] =
      .ok (0, ⟨[([Arg.iface 0].toFinset, 0)], 1⟩) :=
  ⟨(implements_usage_errors initState [] goodState_initState).1 rfl,
    by rfl, by rfl⟩

lemma lookupKey_dictAppend_self {α : Type} (pv : List (String × List α))
    (k : String) (x : α) :
    lookupKey (dictAppend pv k x) k = some ((lookupKey pv k).getD [] ++ [x]) := by
  induction pv with
  | nil => simp [dictAppend, lookupKey]
  | cons hd tl ih =>
      rcases hd with ⟨k', l⟩
      by_cases hk : k' = k
      · subst hk
        simp [dictAppend, lookupKey]
      · simp [dictAppend, lookupKey, hk, ih]

lemma lookupKey_dictAppend_other {α : Type} (pv : List (String × List α))
    (k : String) (x : α) (m : String) (hm : m ≠ k) :
    lookupKey (dictAppend pv k x) m = lookupKey pv m := by
  induction pv with
  | nil =>
      simp only [dictAppend, lookupKey]
      rw [if_neg (fun h => hm h.symm)]
  | cons hd tl ih =>
      rcases hd with ⟨k', l⟩
      by_cases hk : k' = k
      · subst hk
        simp only [dictAppend, if_pos rfl, lookupKey]
        rw [if_neg (fun h => hm h.symm), if_neg (fun h => hm h.symm)]
      · simp only [dictAppend, if_neg hk, lookupKey]
        by_cases hm' : k' = m
        · rw [if_pos hm', if_pos hm']
        · rw [if_neg hm', if_neg hm']
          exact ih

lemma provFold_provider_lists (n m : String) :
    ∀ (ds di : List (String × Impl)) (pv : List (String × List String)),
    ∃ l, (lookupKey (provFold n ds di pv).2 m).getD [] =
        (lookupKey pv m).getD [] ++ l ∧
      (∀ x ∈ l, x = n) ∧ (m ∈ ds.map Prod.fst → l ≠ []) := by
  intro ds
  induction ds with
  | nil =>
      intro di pv
      refine ⟨[], by simp [provFold], by simp, by simp⟩
  | cons hd rest ih =>
      intro di pv
      rcases hd with ⟨name, impl⟩
      rw [provFold]
      by_cases hm : m = name
      · subst hm
        obtain ⟨l', e1, a1, _⟩ := ih (dictInsert di m impl) (dictAppend pv m n)
        refine ⟨n :: l', ?_, ?_, by simp⟩
        · rw [e1, lookupKey_dictAppend_self]
          simp
        · intro x hx
          rcases List.mem_cons.mp hx with rfl | hx'
          · rfl
          · exact a1 x hx'
      · obtain ⟨l', e1, a1, ne1⟩ := ih (dictInsert di name impl) (dictAppend pv name n)
        refine ⟨l', ?_, a1, ?_⟩
        · rw [e1, lookupKey_dictAppend_other pv name n m hm]
        · intro hmm
          apply ne1
          have h9 : m = name ∨ m ∈ rest.map Prod.fst := by simpa using hmm
          rcases h9 with h' | h'
          · exact absurd h' hm
          · exact h'

lemma mem_insertSorted (s : String) (l : List String) (x : String) :
    x ∈ insertSorted s l ↔ x = s ∨ x ∈ l := by
  induction l with
  | nil => simp [insertSorted]
  | cons y ys ih =>
      rw [insertSorted]
      by_cases hs : strLt s y = true
      · simp [hs]
      · simp only [Bool.not_eq_true] at hs
        simp only [hs, Bool.false_eq_true, if_false, List.mem_cons, ih]
        tauto

lemma mem_sortStrings (l : List String) (x : String) :
    x ∈ sortStrings l ↔ x ∈ l := by
  induction l with
  | nil => simp [sortStrings]
  | cons y ys ih =>
      rw [sortStrings, mem_insertSorted]
      simp [ih]

lemma lookupKey_filter {κ α : Type} [DecidableEq κ] (l : List (κ × α)) (k : κ)
    (v : α) (p : κ × α → Bool) (h : lookupKey l k = some v)
    (hp : p (k, v) = true) : lookupKey (l.filter p) k = some v := by
  induction l with
  | nil => simp [lookupKey] at h
  | cons hd tl ih =>
      rcases hd with ⟨k', v'⟩
      by_cases hk : k' = k
      · subst hk
        simp only [lookupKey, if_pos rfl] at h
        injection h with h'
        subst h'
        rw [List.filter_cons, if_pos hp]
        simp [lookupKey]
      · simp only [lookupKey, if_neg hk] at h
        rw [List.filter_cons]
        by_cases hc : p (k', v') = true
        · rw [if_pos hc]
          simp only [lookupKey, if_neg hk]
          exact ih h
        · rw [if_neg hc]
          exact ih h

lemma lookupKey_map_snd {κ α β : Type} [DecidableEq κ] (l : List (κ × α))
    (k : κ) (v : α) (f : α → β) (h : lookupKey l k = some v) :
    lookupKey (l.map (fun p => (p.1, f p.2))) k = some (f v) := by
  induction l with
  | nil => simp [lookupKey] at h
  | cons hd tl ih =>
      rcases hd with ⟨k', v'⟩
      by_cases hk : k' = k
      · subst hk
        simp only [lookupKey, if_pos rfl] at h
        injection h with h'
        subst h'
        simp [lookupKey]
      · simp only [lookupKey, if_neg hk] at h
        simp only [List.map_cons, lookupKey, if_neg hk]
        exact ih h

/-- Counterexample to claim C1: `c1iface1` and `c1iface2` provide literally
the same default object (`sampleImpl`) for `m`, the candidate lacks `m`,
and the combination still fails with the conflicting-defaults diagnostic —
`ImplementsMeta.__new__` counts providers per name and never compares the
default objects, so identical defaults do not avoid the conflict. -/
theorem same_default_object_still_conflicts :
    lookupKey c1iface1.defaults "m" = lookupKey c1iface2.defaults "m" ∧
    ImplementsMeta.check "C" [c1iface1, c1iface2] c1cand =
      .error (.one (.conflict "C" [("m", ["I1", "I2"])])) :=
  ⟨rfl, by rfl⟩

/-- Claim C1 amended: whenever two interfaces both resolve a default for
the same member name on a candidate, combining them fails with a
conflicting-defaults diagnostic naming the candidate and both interfaces —
whether the two defaults are different or literally the same object. -/
theorem implements_check_shared_default_conflicts
    (tn : String) (I1 I2 : Iface) (t : Candidate) (m : String)
    (ds1 ds2 : List (String × Impl))
    (h1 : I1.verify t = .ok ds1) (h2 : I2.verify t = .ok ds2)
    (hm1 : m ∈ ds1.map Prod.fst) (hm2 : m ∈ ds2.map Prod.fst) :
    isConflictErr (ImplementsMeta.check tn [I1, I2] t) tn = true ∧
    I1.name ∈ conflictNames (ImplementsMeta.check tn [I1, I2] t) m ∧
    I2.name ∈ conflictNames (ImplementsMeta.check tn [I1, I2] t) m := by
  set di1 := (provFold I1.name ds1 [] []).1 with hdi1
  set pv1 := (provFold I1.name ds1 [] []).2 with hpv1
  set pv2 := (provFold I2.name ds2 di1 pv1).2 with hpv2
  obtain ⟨l1, e1, a1, ne1⟩ := provFold_provider_lists I1.name m ds1 [] []
  obtain ⟨l2, e2, a2, ne2⟩ := provFold_provider_lists I2.name m ds2 di1 pv1
  have hl1 : l1 ≠ [] := ne1 hm1
  have hl2 : l2 ≠ [] := ne2 hm2
  have e1' : (lookupKey pv1 m).getD [] = l1 := by
    rw [← hpv1] at e1
    rw [e1]
    simp [lookupKey]
  have e2' : (lookupKey pv2 m).getD [] = l1 ++ l2 := by
    rw [← hpv2] at e2
    rw [e2, e1']
  have hLsome : lookupKey pv2 m = some (l1 ++ l2) := by
    cases hc : lookupKey pv2 m with
    | none =>
        rw [hc] at e2'
        simp only [Option.getD_none] at e2'
        cases l1 with
        | nil => exact absurd rfl hl1
        | cons a l => cases e2'
    | some L =>
        rw [hc] at e2'
        simp only [Option.getD_some] at e2'
        rw [e2']
  have hmem : (m, l1 ++ l2) ∈ pv2 := lookupKey_mem _ _ _ hLsome
  have hlen : (fun p : String × List String => decide (1 < p.2.length)) (m, l1 ++ l2) = true := by
    have p1 : 0 < l1.length := List.length_pos.mpr hl1
    have p2 : 0 < l2.length := List.length_pos.mpr hl2
    simp only [decide_eq_true_eq, List.length_append]
    omega
  have hfil : lookupKey (pv2.filter (fun p => decide (1 < p.2.length))) m =
      some (l1 ++ l2) :=
    lookupKey_filter pv2 m (l1 ++ l2) _ hLsome hlen
  have hfil_ne : pv2.filter (fun p => decide (1 < p.2.length)) ≠ [] := by
    intro hc
    rw [hc] at hfil
    simp [lookupKey] at hfil
  have hie : (pv2.filter (fun p => decide (1 < p.2.length))).isEmpty = false := by
    cases hc : pv2.filter (fun p => decide (1 < p.2.length)) with
    | nil => exact absurd hc hfil_ne
    | cons a l => rfl
  have hconf : lookupKey ((pv2.filter (fun p => decide (1 < p.2.length))).map
      (fun p => (p.1, sortStrings p.2))) m = some (sortStrings (l1 ++ l2)) :=
    lookupKey_map_snd _ m (l1 ++ l2) sortStrings hfil
  have hres : ImplementsMeta.check tn [I1, I2] t =
      .error (.one (.conflict tn ((pv2.filter (fun p => decide (1 < p.2.length))).map
        (fun p => (p.1, sortStrings p.2))))) := by
    unfold ImplementsMeta.check
    simp only [verifyFold, h1, h2]
    rw [← hdi1, ← hpv1, ← hpv2]
    simp only [hie, Bool.false_eq_true, if_false, List.map_nil, List.nil_append]
  rw [hres]
  have hi1 : I1.name ∈ l1 ++ l2 := by
    cases l1 with
    | nil => exact absurd rfl hl1
    | cons x xs =>
        have := a1 x (List.mem_cons_self _ _)
        rw [← this]
        exact List.mem_append_left _ (List.mem_cons_self _ _)
  have hi2 : I2.name ∈ l1 ++ l2 := by
    cases l2 with
    | nil => exact absurd rfl hl2
    | cons x xs =>
        have := a2 x (List.mem_cons_self _ _)
        rw [← this]
        exact List.mem_append_right _ (List.mem_cons_self _ _)
  refine ⟨by simp [isConflictErr], ?_, ?_⟩
  · simp only [conflictNames, hconf, Option.getD_some]
    rw [mem_sortStrings]
    exact hi1
  · simp only [conflictNames, hconf, Option.getD_some]
    rw [mem_sortStrings]
    exact hi2

/-- Witness for the amended claim C1 at the concrete interfaces sharing
one default object. -/
theorem implements_check_shared_default_conflicts_witness :
    isConflictErr (ImplementsMeta.check "C" [c1iface1, c1iface2] c1cand) "C" = true ∧
    "I1" ∈ conflictNames (ImplementsMeta.check "C" [c1iface1, c1iface2] c1cand) "m" ∧
    "I2" ∈ conflictNames (ImplementsMeta.check "C" [c1iface1, c1iface2] c1cand) "m" :=
  implements_check_shared_default_conflicts "C" c1iface1 c1iface2 c1cand "m"
    [("m", sampleImpl)] [("m", sampleImpl)] (by rfl) (by rfl) (by decide) (by decide)
